import Mathlib

/-!
Shallow embedding of the polyx-pulse-backend core (src/index.ts): the
bounded deduplicating recency store (`tokens`, `addToken`,
`cleanupOldTokens`), the PumpPortal websocket message handler, the
reconnect state machine, the Moralis backfill normalization, and the
`/api/pulse/tokens` query handler.  JavaScript runtime values are
modelled as follows: possibly-undefined fields are `Option`, numbers are
`ℚ` (the arithmetic the program performs on them is exact), timestamps
are `Int` milliseconds, and JS truthiness of strings/numbers (empty
string and zero are falsy) is written out explicitly at each use site.
-/

/-- The `Token` record of src/index.ts.  The TS type declares
`address : string`, but the Moralis path can store `undefined` in it at
runtime (`(item.tokenAddress || item.address) as string`), so the
runtime-faithful model is `Option String`. -/
structure Token where
  address : Option String
  symbol : String
  name : String
  logo : Option String
  price : ℚ
  marketCap : ℚ
  bondingProgress : Option ℚ
  createdAt : String
  fetchedAt : Int
deriving DecidableEq

/-- `MAX_AGE_MS = 5 * 60 * 1000` (5 minutes). -/
def MAX_AGE_MS : Int := 5 * 60 * 1000

/-- `MAX_TOKENS = 100`. -/
def MAX_TOKENS : Nat := 100

/-- `cleanupOldTokens`, parameterized by the current time:
`tokens = tokens.filter((t) => t.fetchedAt > cutoff)` with
`cutoff = now - MAX_AGE_MS`. -/
def cleanupOldTokens (now : Int) (tokens : List Token) : List Token :=
  tokens.filter (fun t => t.fetchedAt > now - MAX_AGE_MS)

/-- `addToken`: drop entries with the same address, unshift the new one,
truncate to `MAX_TOKENS`. -/
def addToken (token : Token) (tokens : List Token) : List Token :=
  let deduped := tokens.filter (fun t => t.address != token.address)
  let fronted := token :: deduped
  if fronted.length > MAX_TOKENS then fronted.take MAX_TOKENS else fronted

/-- Folding `addToken` over a batch of entries, oldest first. -/
def upsertAll (entries : List Token) (tokens : List Token) : List Token :=
  entries.foldl (fun ts e => addToken e ts) tokens

/-- A concrete token used to instantiate universally quantified theorems. -/
def sampleToken (addr : Option String) (t : Int) : Token :=
  { address := addr, symbol := "S", name := "N", logo := none, price := 0,
    marketCap := 0, bondingProgress := none, createdAt := "d", fetchedAt := t }

/-- First-occurrence replacement on character lists, the semantics of
JavaScript `String.prototype.replace` with a string pattern. -/
def goReplace (pat rep : List Char) : List Char → List Char
  | [] => if pat.isEmpty then rep else []
  | c :: cs =>
    if pat.isPrefixOf (c :: cs) then rep ++ (c :: cs).drop pat.length
    else c :: goReplace pat rep cs

/-- JavaScript `s.replace(pat, rep)` (string pattern: first occurrence only). -/
def jsReplaceFirst (s pat rep : String) : String :=
  ⟨goReplace pat.data rep.data s.data⟩

/-- JavaScript `s.startsWith(pat)`. -/
def jsStartsWith (s pat : String) : Bool :=
  pat.data.isPrefixOf s.data

/-- JavaScript `a || d` for a possibly-undefined string `a` and string
default `d` (the empty string is falsy). -/
def jsOrStr (o : Option String) (d : String) : String :=
  match o with
  | some s => if s = "" then d else s
  | none => d

/-- JavaScript `a || b` where both operands may be undefined strings. -/
def jsOrOptStr (a b : Option String) : Option String :=
  match a with
  | some s => if s = "" then b else some s
  | none => b

/-- JavaScript `a || b` where both operands may be undefined numbers
(zero is falsy). -/
def jsOrOptRat (a b : Option ℚ) : Option ℚ :=
  match a with
  | some q => if q = 0 then b else some q
  | none => b

/-- JavaScript truthiness of a possibly-undefined string. -/
def truthyStr : Option String → Bool
  | some s => s != ""
  | none => false

/-- The `message.uri` → `logo` normalization inside the websocket
message handler: `if (message.uri) { if startsWith ipfs:// … else if
startsWith http … else … }`, with `logo` left undefined when `uri` is
absent or falsy. -/
def normalizeLogo : Option String → Option String
  | none => none
  | some u =>
    if u = "" then none
    else if jsStartsWith u "ipfs://" then
      some ("https://ipfs.io/ipfs/" ++ jsReplaceFirst u "ipfs://" "")
    else if jsStartsWith u "http" then some u
    else some ("https://ipfs.io/ipfs/" ++ u)

/-- The fields of a decoded PumpPortal feed message that the handler
reads; each may be absent. -/
structure FeedMessage where
  txType : Option String
  mint : Option String
  uri : Option String
  symbol : Option String
  name : Option String
  marketCapSol : Option ℚ
  vSolInBondingCurve : Option ℚ
deriving DecidableEq

/-- The `Token` literal built inside `ws.on('message')` for an accepted
feed message, with the ingestion wall-clock time passed explicitly. -/
def mkWsToken (now : Int) (nowIso : String) (m : FeedMessage) : Token :=
  { address := m.mint
    symbol := jsOrStr m.symbol "UNKNOWN"
    name := jsOrStr m.name "Unknown Token"
    logo := normalizeLogo m.uri
    price := 1 / 1000000
    marketCap := match m.marketCapSol with
      | some q => if q = 0 then 0 else q * 185
      | none => 0
    bondingProgress := some (match m.vSolInBondingCurve with
      | some q => if q = 0 then 0 else q / 85 * 100
      | none => 0)
    createdAt := nowIso
    fetchedAt := now }

/-- The `ws.on('message')` handler acting on the store: `none` models a
payload that failed `JSON.parse`; an accepted create-event with truthy
`mint` is normalized and upserted, everything else leaves the store
untouched. -/
def handleWsMessage (now : Int) (nowIso : String) (msg : Option FeedMessage)
    (tokens : List Token) : List Token :=
  match msg with
  | none => tokens
  | some m =>
    if m.txType == some "create" && truthyStr m.mint then
      addToken (mkWsToken now nowIso m) tokens
    else tokens

/-- The mutable connection state relevant to reconnection. -/
structure PumpPortalConn where
  reconnectAttempts : Nat
deriving DecidableEq

/-- `MAX_RECONNECT_ATTEMPTS = 10`. -/
def MAX_RECONNECT_ATTEMPTS : Nat := 10

/-- `RECONNECT_DELAY = 5000` milliseconds. -/
def RECONNECT_DELAY : Nat := 5000

/-- The `ws.on('open')` handler: resets the retry counter. -/
def wsOnOpen (s : PumpPortalConn) : PumpPortalConn :=
  { s with reconnectAttempts := 0 }

/-- The `ws.on('close')` handler: below the budget it increments the
counter and schedules a reconnect after `RECONNECT_DELAY`; at the budget
it schedules nothing. -/
def wsOnClose (s : PumpPortalConn) : PumpPortalConn × Option Nat :=
  if s.reconnectAttempts < MAX_RECONNECT_ATTEMPTS then
    ({ s with reconnectAttempts := s.reconnectAttempts + 1 }, some RECONNECT_DELAY)
  else (s, none)

/-- Delays of the reconnects scheduled by `n` consecutive close events
starting from state `s`, with no intervening open. -/
def wsCloseRun : Nat → PumpPortalConn → List Nat
  | 0, _ => []
  | n + 1, s => (wsOnClose s).2.toList ++ wsCloseRun n (wsOnClose s).1

/-- The image patch applied by the `fetchImageFromMetadata(...).then`
callback: `const idx = tokens.findIndex((t) => t.address === token.address);
if (idx !== -1) tokens[idx].logo = imageUrl;` — patch the first entry
with the given address in place, or do nothing. -/
def patchImage (addr : Option String) (img : String) : List Token → List Token
  | [] => []
  | t :: ts =>
    if t.address == addr then { t with logo := some img } :: ts
    else t :: patchImage addr img ts

/-- Forget the `logo` field (used to state that `patchImage` changes
nothing else). -/
def eraseLogo (t : Token) : Token := { t with logo := none }

/-- The fields of one item of the Moralis `result` array that
`fetchFromMoralis` reads; each may be absent. -/
structure MoralisItem where
  tokenAddress : Option String
  address : Option String
  symbol : Option String
  name : Option String
  logo : Option String
  image : Option String
  priceUsd : Option ℚ
  price : Option ℚ
  marketCapUsd : Option ℚ
  marketCap : Option ℚ
  createdAt : Option String
deriving DecidableEq

/-- The `Token` literal built by `fetchFromMoralis` for one item. -/
def moralisToken (now : Int) (nowIso : String) (item : MoralisItem) : Token :=
  { address := jsOrOptStr item.tokenAddress item.address
    symbol := jsOrStr item.symbol "UNKNOWN"
    name := jsOrStr item.name "Unknown"
    logo := jsOrOptStr item.logo item.image
    price := (jsOrOptRat item.priceUsd item.price).getD 0
    marketCap := (jsOrOptRat item.marketCapUsd item.marketCap).getD 0
    bondingProgress := none
    createdAt := jsOrStr item.createdAt nowIso
    fetchedAt := now }

/-- The store mutation performed by one successful `fetchFromMoralis`
response: each of the first 30 items is normalized and upserted. -/
def fetchFromMoralisProcess (now : Int) (nowIso : String)
    (result : List MoralisItem) (tokens : List Token) : List Token :=
  (result.take 30).foldl (fun ts item => addToken (moralisToken now nowIso item) ts)
    tokens

/-- JavaScript `l.slice(0, stop)`: a negative `stop` counts from the end. -/
def jsSliceTo (l : List Token) (stop : Int) : List Token :=
  if stop < 0 then l.take ((l.length : Int) + stop).toNat else l.take stop.toNat

/-- `Math.min(parseInt(req.query.limit as string) || 50, 100)`; the
argument is the result of `parseInt`, `none` standing for a missing or
unparsable (`NaN`) limit. -/
def pulseTokensLimit (q : Option Int) : Int :=
  min (match q with
       | some n => if n = 0 then 50 else n
       | none => 50) 100

/-- The `GET /api/pulse/tokens` handler: sweep, then return the slice
and the post-sweep count. -/
def pulseTokensResponse (now : Int) (q : Option Int) (tokens : List Token) :
    List Token × Nat :=
  (jsSliceTo (cleanupOldTokens now tokens) (pulseTokensLimit q),
   (cleanupOldTokens now tokens).length)

/-- The end-to-end example message of the spec. -/
def sampleMsg : FeedMessage :=
  { txType := some "create", mint := some "ABC", uri := none,
    symbol := some "FOO", name := none, marketCapSol := some 10,
    vSolInBondingCurve := some (42.5 : ℚ) }

/-- A Moralis item carrying neither `tokenAddress` nor `address`. -/
def sampleItem : MoralisItem :=
  { tokenAddress := none, address := none, symbol := none, name := none,
    logo := none, image := none, priceUsd := none, price := none,
    marketCapUsd := none, marketCap := none, createdAt := none }

theorem addToken_eq_cons (e : Token) (s : List Token) :
    addToken e s =
      e :: (s.filter (fun t => t.address != e.address)).take (MAX_TOKENS - 1) := by
  unfold addToken
  simp only [MAX_TOKENS]
  split
  · rw [show (100 : Nat) = 99 + 1 from rfl, List.take_succ_cons]
  · rename_i h
    simp only [List.length_cons, gt_iff_lt, not_lt] at h
    rw [List.take_of_length_le (by omega)]

theorem filter_take_eq_nil {p : Token → Bool} {l : List Token}
    (h : l.filter p = []) (n : Nat) : (l.take n).filter p = [] := by
  have hsub : List.Sublist ((l.take n).filter p) (l.filter p) :=
    (List.take_sublist n l).filter p
  rw [h] at hsub
  exact List.sublist_nil.mp hsub

theorem filter_addr_addToken (e : Token) (s : List Token) (a : Option String)
    (h : e.address = a) :
    (addToken e s).filter (fun t => t.address == a) = [e] := by
  subst h
  rw [addToken_eq_cons]
  have hnil : (s.filter (fun t => t.address != e.address)).filter
      (fun t => t.address == e.address) = [] := by
    rw [List.filter_filter]
    apply List.filter_eq_nil_iff.mpr
    intro t _
    by_cases hc : t.address = e.address <;> simp [hc]
  rw [List.filter_cons_of_pos (by simp), filter_take_eq_nil hnil]

/-- C1: `addToken e` removes any existing entry with `e`'s address, puts
`e` at the front, and is total; upserting the same id twice leaves
exactly one entry for that id, holding the latest payload, at the
front. -/
theorem addToken_upsert (e : Token) (s : List Token) :
    (addToken e s).head? = some e ∧
    (addToken e s).filter (fun t => t.address == e.address) = [e] ∧
    (∀ e' : Token, e'.address = e.address →
      (addToken e' (addToken e s)).head? = some e' ∧
      (addToken e' (addToken e s)).filter
        (fun t => t.address == e'.address) = [e']) := by
  refine ⟨?_, filter_addr_addToken e s _ rfl, ?_⟩
  · rw [addToken_eq_cons]; rfl
  · intro e' _
    exact ⟨by rw [addToken_eq_cons]; rfl,
      filter_addr_addToken e' (addToken e s) _ rfl⟩

theorem addToken_upsert_witness :
    ((sampleToken (some "a") 1).address = (sampleToken (some "a") 0).address) ∧
    (addToken (sampleToken (some "a") 1)
        (addToken (sampleToken (some "a") 0) [])).filter
      (fun t => t.address == (sampleToken (some "a") 1).address) =
      [sampleToken (some "a") 1] :=
  ⟨rfl, ((addToken_upsert (sampleToken (some "a") 0) []).2.2
      (sampleToken (some "a") 1) rfl).2⟩

theorem addToken_length_le (e : Token) (s : List Token) :
    (addToken e s).length ≤ MAX_TOKENS := by
  rw [addToken_eq_cons]
  simp only [MAX_TOKENS, List.length_cons, List.length_take]
  omega

theorem take_append_take (n : Nat) (l m : List Token) :
    (l ++ m.take n).take n = (l ++ m).take n := by
  have hmin : min (n - l.length) n = n - l.length := by omega
  rw [List.take_append_eq_append_take, List.take_append_eq_append_take,
    List.take_take, hmin]

theorem upsertAll_eq_take (entries : List Token) :
    ∀ s : List Token, s.length ≤ MAX_TOKENS →
    (entries.map Token.address).Nodup →
    (∀ e ∈ entries, e.address ∉ s.map Token.address) →
    upsertAll entries s = (entries.reverse ++ s).take MAX_TOKENS := by
  induction entries with
  | nil =>
    intro s hlen _ _
    simp [upsertAll, List.take_of_length_le hlen]
  | cons e es ih =>
    intro s hlen hnodup hdisj
    obtain ⟨hhead, htail⟩ : e.address ∉ es.map Token.address ∧
        (es.map Token.address).Nodup := by simpa using hnodup
    have hmem : e.address ∉ s.map Token.address := hdisj e (List.mem_cons_self e es)
    have hfilter : s.filter (fun t => t.address != e.address) = s := by
      apply List.filter_eq_self.mpr
      intro t ht
      simp only [bne_iff_ne, ne_eq, decide_eq_true_eq]
      intro heq
      exact hmem (heq ▸ List.mem_map_of_mem Token.address ht)
    have haddTok : addToken e s = (e :: s).take MAX_TOKENS := by
      rw [addToken_eq_cons, hfilter]
      show e :: s.take 99 = (e :: s).take (99 + 1)
      rw [List.take_succ_cons]
    have hdisj2 : ∀ f ∈ es, f.address ∉ (addToken e s).map Token.address := by
      intro f hf hmem2
      rw [haddTok] at hmem2
      have h3 : f.address ∈ (e :: s).map Token.address :=
        (((List.take_sublist MAX_TOKENS (e :: s)).map Token.address).subset) hmem2
      simp only [List.map_cons, List.mem_cons] at h3
      rcases h3 with h3 | h3
      · exact hhead (h3 ▸ List.mem_map_of_mem Token.address hf)
      · exact hdisj f (List.mem_cons_of_mem e hf) h3
    have hstep : upsertAll (e :: es) s = upsertAll es (addToken e s) := rfl
    rw [hstep, ih (addToken e s) (addToken_length_le e s) htail hdisj2, haddTok,
      take_append_take, List.reverse_cons, List.append_assoc, List.singleton_append]

/-- C2: the store never exceeds `MAX_TOKENS = 100` entries, and for a
batch of upserts of pairwise-distinct ids into the empty store, the
surviving entries are exactly the 100 most recently upserted ones in
most-recent-first insertion order (the oldest are dropped). -/
theorem store_capacity (e : Token) (s : List Token) (entries : List Token) :
    (addToken e s).length ≤ MAX_TOKENS ∧
    ((entries.map Token.address).Nodup →
      upsertAll entries [] = entries.reverse.take MAX_TOKENS) := by
  refine ⟨addToken_length_le e s, fun hnodup => ?_⟩
  rw [upsertAll_eq_take entries [] (by simp [MAX_TOKENS]) hnodup (by simp),
    List.append_nil]

theorem store_capacity_witness :
    upsertAll [sampleToken (some "a") 0, sampleToken (some "b") 0] [] =
      [sampleToken (some "b") 0, sampleToken (some "a") 0] := by
  have h := (store_capacity (sampleToken (some "a") 0) []
      [sampleToken (some "a") 0, sampleToken (some "b") 0]).2 (by decide)
  rw [h]
  rfl

/-- C3 counterexample: an entry whose `fetchedAt` equals exactly
`now - MAX_AGE_MS` is removed by `cleanupOldTokens`, although the claim
says such an entry remains. -/
theorem cleanup_boundary_cex :
    (sampleToken (some "x") 0).fetchedAt = MAX_AGE_MS - MAX_AGE_MS ∧
    cleanupOldTokens MAX_AGE_MS [sampleToken (some "x") 0] = [] := by
  decide

/-- C3 (amended): after `cleanupOldTokens now`, no entry with
`fetchedAt ≤ now - MAX_AGE_MS` remains (boundary entries at exactly
`now - MAX_AGE_MS` are dropped), every entry with
`fetchedAt > now - MAX_AGE_MS` remains, and the relative order of the
survivors is preserved. -/
theorem cleanup_spec (now : Int) (ts : List Token) :
    (∀ t ∈ cleanupOldTokens now ts, t.fetchedAt > now - MAX_AGE_MS) ∧
    (∀ t ∈ ts, t.fetchedAt > now - MAX_AGE_MS → t ∈ cleanupOldTokens now ts) ∧
    List.Sublist (cleanupOldTokens now ts) ts := by
  refine ⟨?_, ?_, List.filter_sublist ts⟩
  · intro t ht
    have h := List.of_mem_filter ht
    simpa using h
  · intro t ht h
    exact List.mem_filter.mpr ⟨ht, by simpa using h⟩

theorem cleanup_spec_witness :
    sampleToken (some "x") MAX_AGE_MS ∈
      cleanupOldTokens MAX_AGE_MS [sampleToken (some "x") MAX_AGE_MS] :=
  (cleanup_spec MAX_AGE_MS [sampleToken (some "x") MAX_AGE_MS]).2.1
    (sampleToken (some "x") MAX_AGE_MS) (List.mem_singleton.mpr rfl) (by decide)

/-- C4 counterexample: with query `limit=0` (parsed limit `0`) and one
fresh stored entry, the handler returns that entry, so the response is
not capped at the limit `0` the claim prescribes for every integer
limit. -/
theorem pulse_limit_zero_cex :
    ¬ ((pulseTokensResponse MAX_AGE_MS (some 0)
        [sampleToken (some "x") MAX_AGE_MS]).1.length ≤ 0) := by
  decide

/-- C4 (amended): the response count is the true post-sweep total; a
missing/unparsable limit and a parsed limit of `0` both default to 50; a
positive limit returns the first `min(limit, 100)` post-sweep entries
(front-to-back, most-recently-upserted first); a negative limit follows
JavaScript `slice` semantics and drops `|limit|` entries from the
back. -/
theorem pulse_response_spec (now : Int) (q : Option Int) (ts : List Token) :
    (pulseTokensResponse now q ts).2 = (cleanupOldTokens now ts).length ∧
    (q = none ∨ q = some 0 →
      (pulseTokensResponse now q ts).1 = (cleanupOldTokens now ts).take 50) ∧
    (∀ n : Int, q = some n → 0 < n →
      (pulseTokensResponse now q ts).1 =
        (cleanupOldTokens now ts).take (min n.toNat 100)) ∧
    (∀ n : Int, q = some n → n < 0 →
      (pulseTokensResponse now q ts).1 =
        (cleanupOldTokens now ts).take
          (((cleanupOldTokens now ts).length : Int) + n).toNat) := by
  refine ⟨rfl, ?_, ?_, ?_⟩
  · rintro (rfl | rfl) <;> rfl
  · intro n hq hn
    subst hq
    have hlimit : pulseTokensLimit (some n) = min n 100 := by
      show min (if n = 0 then (50 : Int) else n) 100 = min n 100
      rw [if_neg (by omega : ¬ n = 0)]
    have h1 : (pulseTokensResponse now (some n) ts).1 =
        jsSliceTo (cleanupOldTokens now ts) (pulseTokensLimit (some n)) := rfl
    rw [h1, hlimit]
    unfold jsSliceTo
    rw [if_neg (by omega : ¬ (min n 100 : Int) < 0)]
    congr 1
    omega
  · intro n hq hn
    subst hq
    have hlimit : pulseTokensLimit (some n) = n := by
      show min (if n = 0 then (50 : Int) else n) 100 = n
      rw [if_neg (by omega : ¬ n = 0)]
      omega
    have h1 : (pulseTokensResponse now (some n) ts).1 =
        jsSliceTo (cleanupOldTokens now ts) (pulseTokensLimit (some n)) := rfl
    rw [h1, hlimit]
    unfold jsSliceTo
    rw [if_pos hn]

theorem pulse_response_spec_witness :
    (pulseTokensResponse MAX_AGE_MS (some 7)
        [sampleToken (some "x") MAX_AGE_MS]).1 =
      (cleanupOldTokens MAX_AGE_MS [sampleToken (some "x") MAX_AGE_MS]).take
        (min (Int.toNat 7) 100) :=
  (pulse_response_spec MAX_AGE_MS (some 7)
    [sampleToken (some "x") MAX_AGE_MS]).2.2.1 7 rfl (by decide)

/-- C5: an incoming feed message mutates the store only when it carries
`txType == "create"` and a truthy (non-empty) `mint`; a message missing
either, or one that fails to decode as JSON, leaves the store exactly
unchanged, and an accepted message is normalized and upserted. -/
theorem ws_message_filtering (now : Int) (nowIso : String)
    (msg : Option FeedMessage) (tokens : List Token) :
    (msg = none → handleWsMessage now nowIso msg tokens = tokens) ∧
    (∀ m : FeedMessage, msg = some m →
      ((m.txType ≠ some "create" ∨ truthyStr m.mint = false) →
        handleWsMessage now nowIso msg tokens = tokens) ∧
      (m.txType = some "create" → truthyStr m.mint = true →
        handleWsMessage now nowIso msg tokens =
          addToken (mkWsToken now nowIso m) tokens)) := by
  constructor
  · rintro rfl; rfl
  · rintro m rfl
    constructor
    · intro h
      show (if m.txType == some "create" && truthyStr m.mint then
        addToken (mkWsToken now nowIso m) tokens else tokens) = tokens
      rw [if_neg]
      intro hc
      obtain ⟨h1, h2⟩ := Bool.and_eq_true_iff.mp hc
      rcases h with h | h
      · exact h (beq_iff_eq.mp h1)
      · rw [h] at h2; cases h2
    · intro h1 h2
      show (if m.txType == some "create" && truthyStr m.mint then
        addToken (mkWsToken now nowIso m) tokens else tokens) =
        addToken (mkWsToken now nowIso m) tokens
      rw [if_pos (Bool.and_eq_true_iff.mpr ⟨beq_iff_eq.mpr h1, h2⟩)]

theorem ws_message_filtering_witness :
    handleWsMessage 0 "t" (some sampleMsg) [] =
      addToken (mkWsToken 0 "t" sampleMsg) [] :=
  ((ws_message_filtering 0 "t" (some sampleMsg) []).2 sampleMsg rfl).2 rfl
    (by decide)

theorem isPrefixOf_append (l r : List Char) : l.isPrefixOf (l ++ r) = true := by
  induction l with
  | nil => simp
  | cons c cs ih => simp [List.isPrefixOf, ih]

theorem goReplace_append (pat rep rest : List Char) (h : pat ≠ []) :
    goReplace pat rep (pat ++ rest) = rep ++ rest := by
  match pat, h with
  | c :: cs, _ =>
    show goReplace (c :: cs) rep ((c :: cs) ++ rest) = rep ++ rest
    have hpre : (c :: cs).isPrefixOf ((c :: cs) ++ rest) = true :=
      isPrefixOf_append _ _
    rw [List.cons_append] at hpre
    rw [List.cons_append]
    simp only [goReplace]
    rw [if_pos hpre, ← List.cons_append]
    exact congrArg (rep ++ ·) (List.drop_left _ _)

theorem jsReplaceFirst_strips_ipfs (rest : String) :
    jsReplaceFirst ("ipfs://" ++ rest) "ipfs://" "" = rest := by
  show String.mk (goReplace "ipfs://".data [] ("ipfs://".data ++ rest.data)) = rest
  rw [goReplace_append _ _ _ (by decide), List.nil_append]

theorem jsStartsWith_ipfs_append (rest : String) :
    jsStartsWith ("ipfs://" ++ rest) "ipfs://" = true := by
  show "ipfs://".data.isPrefixOf ("ipfs://".data ++ rest.data) = true
  exact isPrefixOf_append _ _

theorem ipfs_append_ne_empty (rest : String) : ("ipfs://" ++ rest) ≠ "" := by
  intro h
  have h2 := congrArg String.data h
  rw [show ("ipfs://" ++ rest).data = "ipfs://".data ++ rest.data from rfl,
    show ("" : String).data = [] from rfl] at h2
  exact absurd (List.append_eq_nil.mp h2).1 (by decide)

theorem isPrefixOf_same_head {c d : Char} {cs ds u : List Char}
    (h1 : (c :: cs).isPrefixOf u = true) (h2 : (d :: ds).isPrefixOf u = true) :
    c = d := by
  cases u with
  | nil => simp [List.isPrefixOf] at h1
  | cons e es =>
    simp only [List.isPrefixOf, Bool.and_eq_true, beq_iff_eq] at h1 h2
    rw [h1.1, h2.1]

theorem jsStartsWith_http_ne_empty (u : String)
    (h : jsStartsWith u "http" = true) : u ≠ "" := by
  intro heq
  rw [heq] at h
  exact absurd h (by decide)

theorem jsStartsWith_http_not_ipfs (u : String)
    (h : jsStartsWith u "http" = true) : jsStartsWith u "ipfs://" = false := by
  by_contra hc
  rw [Bool.not_eq_false] at hc
  rw [show jsStartsWith u "http" = ("http".data.isPrefixOf u.data) from rfl,
    show "http".data = 'h' :: "ttp".data from rfl] at h
  rw [show jsStartsWith u "ipfs://" = ("ipfs://".data.isPrefixOf u.data) from rfl,
    show "ipfs://".data = 'i' :: "pfs://".data from rfl] at hc
  exact absurd (isPrefixOf_same_head h hc) (by decide)

/-- C6 counterexample: the uri field holding the empty string is a
string, and the claim's fallthrough branch would produce the bare
gateway URL for it, but the handler treats the falsy empty string like
an absent field and leaves the logo unset. -/
theorem normalizeLogo_empty_cex :
    normalizeLogo (some "") ≠ some ("https://ipfs.io/ipfs/" ++ "") := by
  decide

/-- C6 (amended): an absent uri and the (falsy) empty-string uri leave
the logo unset; a uri with the `ipfs://` prefix maps to the gateway URL
with the prefix stripped; a uri starting with `http` passes through
unchanged; any other non-empty uri is appended to the gateway base. -/
theorem normalizeLogo_spec (rest u : String) :
    normalizeLogo none = none ∧
    normalizeLogo (some "") = none ∧
    normalizeLogo (some ("ipfs://" ++ rest)) =
      some ("https://ipfs.io/ipfs/" ++ rest) ∧
    (jsStartsWith u "http" = true → normalizeLogo (some u) = some u) ∧
    (u ≠ "" → jsStartsWith u "ipfs://" = false → jsStartsWith u "http" = false →
      normalizeLogo (some u) = some ("https://ipfs.io/ipfs/" ++ u)) := by
  refine ⟨rfl, rfl, ?_, ?_, ?_⟩
  · show (if ("ipfs://" ++ rest) = "" then none
      else if jsStartsWith ("ipfs://" ++ rest) "ipfs://" then
        some ("https://ipfs.io/ipfs/" ++
          jsReplaceFirst ("ipfs://" ++ rest) "ipfs://" "")
      else if jsStartsWith ("ipfs://" ++ rest) "http" then
        some ("ipfs://" ++ rest)
      else some ("https://ipfs.io/ipfs/" ++ ("ipfs://" ++ rest))) =
      some ("https://ipfs.io/ipfs/" ++ rest)
    rw [if_neg (ipfs_append_ne_empty rest),
      if_pos (jsStartsWith_ipfs_append rest), jsReplaceFirst_strips_ipfs]
  · intro h
    show (if u = "" then none
      else if jsStartsWith u "ipfs://" then
        some ("https://ipfs.io/ipfs/" ++ jsReplaceFirst u "ipfs://" "")
      else if jsStartsWith u "http" then some u
      else some ("https://ipfs.io/ipfs/" ++ u)) = some u
    rw [if_neg (jsStartsWith_http_ne_empty u h),
      if_neg (by rw [jsStartsWith_http_not_ipfs u h]; exact Bool.false_ne_true),
      if_pos h]
  · intro hne hipfs hhttp
    show (if u = "" then none
      else if jsStartsWith u "ipfs://" then
        some ("https://ipfs.io/ipfs/" ++ jsReplaceFirst u "ipfs://" "")
      else if jsStartsWith u "http" then some u
      else some ("https://ipfs.io/ipfs/" ++ u)) =
      some ("https://ipfs.io/ipfs/" ++ u)
    rw [if_neg hne, if_neg (by rw [hipfs]; exact Bool.false_ne_true),
      if_neg (by rw [hhttp]; exact Bool.false_ne_true)]

theorem normalizeLogo_spec_witness :
    normalizeLogo (some "http://x/y.png") = some "http://x/y.png" :=
  (normalizeLogo_spec "abc123" "http://x/y.png").2.2.2.1 (by decide)

/-- C7: for an accepted message the stored `marketCap` is the feed's
`marketCapSol` times the constant 185 (0 when the field is absent), and
`bondingProgress` is `vSolInBondingCurve / 85 * 100` (0 when absent); in
particular the spec's example message yields `marketCap = 1850`,
`bondingProgress = 50` and `symbol = "FOO"`. -/
theorem ws_token_numeric (now : Int) (nowIso : String) (m : FeedMessage) :
    (∀ q : ℚ, m.marketCapSol = some q →
      (mkWsToken now nowIso m).marketCap = q * 185) ∧
    (m.marketCapSol = none → (mkWsToken now nowIso m).marketCap = 0) ∧
    (∀ q : ℚ, m.vSolInBondingCurve = some q →
      (mkWsToken now nowIso m).bondingProgress = some (q / 85 * 100)) ∧
    (m.vSolInBondingCurve = none →
      (mkWsToken now nowIso m).bondingProgress = some 0) ∧
    (mkWsToken now nowIso sampleMsg).marketCap = 1850 ∧
    (mkWsToken now nowIso sampleMsg).bondingProgress = some 50 ∧
    (mkWsToken now nowIso sampleMsg).symbol = "FOO" := by
  refine ⟨?_, ?_, ?_, ?_, ?_, ?_, rfl⟩
  · intro q hq
    simp only [mkWsToken, hq]
    by_cases hq0 : q = 0
    · simp [hq0]
    · rw [if_neg hq0]
  · intro hq
    simp only [mkWsToken, hq]
  · intro q hq
    simp only [mkWsToken, hq]
    by_cases hq0 : q = 0
    · simp [hq0]
    · rw [if_neg hq0]
  · intro hq
    simp only [mkWsToken, hq]
  · simp only [mkWsToken, sampleMsg]
    norm_num
  · simp only [mkWsToken, sampleMsg]
    norm_num

theorem ws_token_numeric_witness :
    (mkWsToken 0 "t" sampleMsg).marketCap = 10 * 185 :=
  (ws_token_numeric 0 "t" sampleMsg).1 10 rfl

theorem wsCloseRun_shift (n : Nat) : ∀ k : Nat,
    wsCloseRun n ⟨k⟩ =
      List.replicate (min n (MAX_RECONNECT_ATTEMPTS - k)) RECONNECT_DELAY := by
  induction n with
  | zero => intro k; simp [wsCloseRun]
  | succ n ih =>
    intro k
    by_cases hk : k < MAX_RECONNECT_ATTEMPTS
    · have hclose : wsOnClose ⟨k⟩ = (⟨k + 1⟩, some RECONNECT_DELAY) := by
        unfold wsOnClose
        rw [if_pos hk]
      simp only [wsCloseRun, hclose, Option.toList_some, List.singleton_append]
      rw [ih (k + 1)]
      rw [show min (n + 1) (MAX_RECONNECT_ATTEMPTS - k) =
          min n (MAX_RECONNECT_ATTEMPTS - (k + 1)) + 1 from by
        simp only [MAX_RECONNECT_ATTEMPTS] at hk ⊢
        omega]
      rw [List.replicate_succ]
    · have hclose : wsOnClose ⟨k⟩ = (⟨k⟩, none) := by
        unfold wsOnClose
        rw [if_neg hk]
      simp only [wsCloseRun, hclose, Option.toList_none, List.nil_append]
      rw [ih k]
      rw [show MAX_RECONNECT_ATTEMPTS - k = 0 from by
        simp only [MAX_RECONNECT_ATTEMPTS] at hk ⊢
        omega]
      simp

/-- C8: starting from a fresh connection (which resets the retry counter
to zero), `n` consecutive close events with no intervening open schedule
exactly `min n 10` reconnect attempts, each after the fixed 5000 ms
delay; once the budget is exhausted a further close schedules nothing
and leaves the state unchanged. -/
theorem reconnect_schedule (n : Nat) (s : PumpPortalConn) :
    wsCloseRun n (wsOnOpen s) =
      List.replicate (min n MAX_RECONNECT_ATTEMPTS) RECONNECT_DELAY ∧
    (wsOnOpen s).reconnectAttempts = 0 ∧
    (MAX_RECONNECT_ATTEMPTS ≤ s.reconnectAttempts → wsOnClose s = (s, none)) := by
  refine ⟨?_, rfl, ?_⟩
  · rw [show wsOnOpen s = ⟨0⟩ from rfl, wsCloseRun_shift n 0, Nat.sub_zero]
  · intro h
    unfold wsOnClose
    rw [if_neg (by omega)]

theorem reconnect_schedule_witness :
    wsOnClose ⟨10⟩ = (⟨10⟩, none) :=
  (reconnect_schedule 0 ⟨10⟩).2.2 (by decide)

/-- C9: the asynchronous image patch changes at most the `logo` field of
the first entry whose address matches, preserving the store's length,
order and every other field; when no entry with the address exists
(evicted or replaced) it is a complete no-op and resurrects nothing:
every entry of the result is an existing entry or an existing matching
entry with only its logo replaced. -/
theorem patchImage_spec (addr : Option String) (img : String) (ts : List Token) :
    (patchImage addr img ts).length = ts.length ∧
    (patchImage addr img ts).map eraseLogo = ts.map eraseLogo ∧
    ((∀ t ∈ ts, t.address ≠ addr) → patchImage addr img ts = ts) ∧
    (∀ t ∈ patchImage addr img ts,
      t ∈ ts ∨ ∃ u ∈ ts, u.address = addr ∧ t = { u with logo := some img }) ∧
    ((∃ t ∈ ts, t.address = addr) →
      ∃ t ∈ patchImage addr img ts, t.address = addr ∧ t.logo = some img) := by
  induction ts with
  | nil => simp [patchImage]
  | cons t ts ih =>
    by_cases h : t.address = addr
    · have hcond : (t.address == addr) = true := beq_iff_eq.mpr h
      simp only [patchImage, if_pos hcond]
      refine ⟨by simp, by simp [eraseLogo], ?_, ?_, ?_⟩
      · intro hall
        exact absurd h (hall t (List.mem_cons_self t ts))
      · intro x hx
        rcases List.mem_cons.mp hx with hx | hx
        · exact Or.inr ⟨t, List.mem_cons_self t ts, h, hx⟩
        · exact Or.inl (List.mem_cons_of_mem t hx)
      · intro _
        exact ⟨{ t with logo := some img },
          List.mem_cons_self _ _, h, rfl⟩
    · have hcond : ¬ (t.address == addr) = true := by
        rw [beq_iff_eq]
        exact h
      simp only [patchImage, if_neg hcond]
      refine ⟨by simp [ih.1], by simp [ih.2.1], ?_, ?_, ?_⟩
      · intro hall
        rw [ih.2.2.1 (fun u hu => hall u (List.mem_cons_of_mem t hu))]
      · intro x hx
        rcases List.mem_cons.mp hx with hx | hx
        · exact Or.inl (hx ▸ List.mem_cons_self t ts)
        · rcases ih.2.2.2.1 x hx with hx' | ⟨u, hu, hau, hxu⟩
          · exact Or.inl (List.mem_cons_of_mem t hx')
          · exact Or.inr ⟨u, List.mem_cons_of_mem t hu, hau, hxu⟩
      · rintro ⟨u, hu, hau⟩
        rcases List.mem_cons.mp hu with hu | hu
        · exact absurd (hu ▸ hau) h
        · obtain ⟨x, hx, hxa, hxl⟩ := ih.2.2.2.2 ⟨u, hu, hau⟩
          exact ⟨x, List.mem_cons_of_mem t hx, hxa, hxl⟩

theorem patchImage_spec_witness :
    patchImage (some "b") "img" [sampleToken (some "a") 0] =
      [sampleToken (some "a") 0] :=
  (patchImage_spec (some "b") "img" [sampleToken (some "a") 0]).2.2.1
    (by decide)

/-- C10: a Moralis item carrying neither `tokenAddress` nor `address` is
still normalized and upserted, producing a store entry whose id is
`undefined`; two such id-less entries deduplicate against each other
exactly as if they shared an id, so after upserting both only the later
one remains among the id-less entries. -/
theorem moralis_undefined_id (now : Int) (nowIso : String) (i1 i2 : MoralisItem)
    (ts : List Token)
    (h1a : i1.tokenAddress = none) (h1b : i1.address = none)
    (h2a : i2.tokenAddress = none) (h2b : i2.address = none) :
    (moralisToken now nowIso i1).address = none ∧
    (fetchFromMoralisProcess now nowIso [i1, i2] ts).filter
        (fun t => t.address == (none : Option String)) =
      [moralisToken now nowIso i2] := by
  have haddr2 : (moralisToken now nowIso i2).address = none := by
    simp [moralisToken, jsOrOptStr, h2a, h2b]
  refine ⟨by simp [moralisToken, jsOrOptStr, h1a, h1b], ?_⟩
  have hstep : fetchFromMoralisProcess now nowIso [i1, i2] ts =
      addToken (moralisToken now nowIso i2)
        (addToken (moralisToken now nowIso i1) ts) := rfl
  rw [hstep]
  exact filter_addr_addToken _ _ _ haddr2

theorem moralis_undefined_id_witness :
    (fetchFromMoralisProcess 0 "t" [sampleItem, sampleItem] []).filter
        (fun t => t.address == (none : Option String)) =
      [moralisToken 0 "t" sampleItem] :=
  (moralis_undefined_id 0 "t" sampleItem sampleItem [] rfl rfl rfl rfl).2
